import Mathlib

/-!
# F0 multi-tier content cache — verification of the cache/invalidation subsystem

Shallow embedding of the cache and invalidation subsystem of the f0
documentation server:

* the aggregate-context (`/llms.txt`) cache and its tree-wide content
  fingerprint (`src/server/utils/brand.ts`, llms-cache section:
  `computeContentHash`, `getCachedLlmsTxt`, `sectionCache`);
* the directory settings cache (`src/server/utils/config.ts`:
  `isCacheValid`, `parseConfigFile`, `resolveDirectoryConfig`);
* the brand configuration cache (`src/server/utils/brand.ts`:
  `getBrandConfig`, `invalidateBrandCache`);
* the image derivative cache (image processing pipeline:
  `parseImageOptions`, `getCacheKey`, `processImageBuffer`,
  `getProcessedImage`).

Machine integers (`mtimeMs`, dimensions) are modelled as `Nat`/`Int`; the
md5 digest is modelled by its pre-hash input (the sorted entry list), i.e.
hash injectivity is assumed where a claim needs it.
-/

namespace F0

/-! ## Filesystem model

A content tree: directories hold the list of entries `readdir` returns
(name plus subtree), files carry their modification time (`mtimeMs`,
modelled as `Nat`). -/

mutual

inductive FSTree : Type where
  | file : Nat → FSTree
  | dir : FSEntries → FSTree

inductive FSEntries : Type where
  | nil : FSEntries
  | cons : String → FSTree → FSEntries → FSEntries

end

/-- JS `String.prototype.startsWith`, on the character sequence. -/
def strStarts (s pre : String) : Bool :=
  pre.data.isPrefixOf s.data

/-- JS `String.prototype.endsWith`, on the character sequence. -/
def strEnds (s post : String) : Bool :=
  post.data.isSuffixOf s.data

/-- The skip rule of the fingerprint walk (`computeContentHash`, brand.ts
lines 228–230): hidden/config names (leading `.` or `_`), the asset and
image directories, and the navigation file are skipped. -/
def skipName (n : String) : Bool :=
  strStarts n "." || strStarts n "_" ||
    n == "assets" || n == "images" || n == "nav.md"

/-- File filter of the walk (brand.ts line 236): only `.md` and `.json`
files contribute entries. -/
def isContentFile (n : String) : Bool :=
  strEnds n ".md" || strEnds n ".json"

/-- One pre-hash entry: the file path (as the list of path components below
the content root; the code joins them with `/` and appends `:mtimeMs`) and
the file's mtime. -/
abbrev Entry := List String × Nat

mutual

/-- The walk of `computeContentHash` applied to one directory entry
(brand.ts lines 227–245): skipped names contribute nothing, directories
recurse, content files contribute their `(path, mtime)` entry. -/
def walkEntry (n : String) : FSTree → List Entry
  | .file m =>
    if skipName n then []
    else if isContentFile n then [([n], m)] else []
  | .dir es =>
    if skipName n then []
    else (walkList es).map (fun e => (n :: e.1, e.2))
termination_by structural t => t

/-- The walk over a `readdir` listing, in directory order. -/
def walkList : FSEntries → List Entry
  | .nil => []
  | .cons n t es => walkEntry n t ++ walkList es
termination_by structural es => es

end

/-- The full pre-hash entry collection of `computeContentHash dir`
(unsorted, in walk order). `readdir` on a non-directory throws and is
caught, yielding no entries. -/
def computeEntries : FSTree → List Entry
  | .file _ => []
  | .dir es => walkList es

mutual

/-- Does the directory entry `(n, t)` contain (ignoring all skip rules) a
file at relative path `p` with mtime `m`? -/
def hitEntry (n : String) (t : FSTree) (p : List String) (m : Nat) : Bool :=
  match t with
  | .file mt =>
    match p with
    | [x] => x == n && mt == m
    | _ => false
  | .dir es =>
    match p with
    | x :: xs => x == n && entriesHasFile es xs m
    | _ => false
termination_by structural t

/-- Does the listing contain a file at relative path `p` with mtime `m`? -/
def entriesHasFile : FSEntries → List String → Nat → Bool
  | .nil, _, _ => false
  | .cons n t es, p, m => hitEntry n t p m || entriesHasFile es p m
termination_by structural es => es

end

/-- Raw file lookup from the content root. -/
def topHasFile : FSTree → List String → Nat → Bool
  | .file _, _, _ => false
  | .dir es, p, m => entriesHasFile es p m

/-- A path qualifies for the fingerprint: every component escapes the skip
rule and the file name has a content extension. -/
def qualPath : List String → Bool
  | [] => false
  | [n] => !skipName n && isContentFile n
  | n :: xs => !skipName n && qualPath xs

/-- A qualifying content file of the tree: present in the tree, no
component hidden/excluded, and a content extension. -/
def topQual (t : FSTree) (p : List String) (m : Nat) : Bool :=
  topHasFile t p m && qualPath p

/-- Well-formed `readdir` listings: sibling names are distinct. -/
def entryNames : FSEntries → List String
  | .nil => []
  | .cons n _ es => n :: entryNames es

mutual

def wfTree : FSTree → Bool
  | .file _ => true
  | .dir es => wfEntries es
termination_by structural t => t

def wfEntries : FSEntries → Bool
  | .nil => true
  | .cons n t es => !(entryNames es).contains n && wfTree t && wfEntries es
termination_by structural es => es

end

theorem walkEntry_file (n : String) (m : Nat) :
    walkEntry n (.file m) =
      if skipName n then [] else if isContentFile n then [([n], m)] else [] := rfl

theorem walkEntry_dir (n : String) (es : FSEntries) :
    walkEntry n (.dir es) =
      if skipName n then [] else (walkList es).map (fun e => (n :: e.1, e.2)) := rfl

theorem walkEntry_file_skip (n : String) (m : Nat) (hs : skipName n = true) :
    walkEntry n (.file m) = [] := by
  rw [walkEntry_file, if_pos hs]

theorem walkEntry_file_content (n : String) (m : Nat) (hs : skipName n = false)
    (hc : isContentFile n = true) : walkEntry n (.file m) = [([n], m)] := by
  rw [walkEntry_file, if_neg (by simp [hs]), if_pos hc]

theorem walkEntry_file_other (n : String) (m : Nat) (hs : skipName n = false)
    (hc : isContentFile n = false) : walkEntry n (.file m) = [] := by
  rw [walkEntry_file, if_neg (by simp [hs]), if_neg (by simp [hc])]

theorem walkEntry_dir_skip (n : String) (es : FSEntries) (hs : skipName n = true) :
    walkEntry n (.dir es) = [] := by
  rw [walkEntry_dir, if_pos hs]

theorem walkEntry_dir_go (n : String) (es : FSEntries) (hs : skipName n = false) :
    walkEntry n (.dir es) = (walkList es).map (fun e => (n :: e.1, e.2)) := by
  rw [walkEntry_dir, if_neg (by simp [hs])]

theorem hitEntry_file_one (n x : String) (mt m : Nat) :
    hitEntry n (.file mt) [x] m = (x == n && mt == m) := rfl

theorem hitEntry_dir_cons (n x : String) (es : FSEntries) (xs : List String) (m : Nat) :
    hitEntry n (.dir es) (x :: xs) m = (x == n && entriesHasFile es xs m) := rfl

theorem hitEntry_nil_path (n : String) (t : FSTree) (m : Nat) :
    hitEntry n t [] m = false := by
  cases t <;> rfl

theorem hitEntry_file_cons2 (n x y : String) (ys : List String) (mt m : Nat) :
    hitEntry n (.file mt) (x :: y :: ys) m = false := rfl

theorem entriesHasFile_nil_path : (es : FSEntries) → (m : Nat) →
    entriesHasFile es [] m = false
  | .nil, _ => rfl
  | .cons n t es, m => by
    simp only [entriesHasFile, hitEntry_nil_path, entriesHasFile_nil_path es m,
      Bool.or_self]

theorem qualPath_one (n : String) :
    qualPath [n] = (!skipName n && isContentFile n) := rfl

theorem qualPath_cons2 (n x : String) (xs : List String) :
    qualPath (n :: x :: xs) = (!skipName n && qualPath (x :: xs)) := rfl

theorem qualPath_head (n : String) (xs : List String)
    (h : qualPath (n :: xs) = true) : skipName n = false := by
  cases xs with
  | nil =>
    rw [qualPath_one] at h
    simp only [Bool.and_eq_true, Bool.not_eq_true'] at h
    exact h.1
  | cons y ys =>
    rw [qualPath_cons2] at h
    simp only [Bool.and_eq_true, Bool.not_eq_true'] at h
    exact h.1

mutual

theorem mem_walkEntry (n : String) (t : FSTree) (p : List String) (m : Nat) :
    (p, m) ∈ walkEntry n t ↔ hitEntry n t p m = true ∧ qualPath p = true := by
  cases t with
  | file mt =>
    cases hs : skipName n with
    | true =>
      rw [walkEntry_file_skip n mt hs]
      simp only [List.not_mem_nil, false_iff]
      rintro ⟨h1, h2⟩
      cases p with
      | nil => simp [hitEntry_nil_path] at h1
      | cons x xs =>
        cases xs with
        | nil =>
          rw [hitEntry_file_one] at h1
          simp only [Bool.and_eq_true, beq_iff_eq] at h1
          have hh := qualPath_head x [] h2
          rw [h1.1, hs] at hh
          simp at hh
        | cons y ys => simp [hitEntry_file_cons2] at h1
    | false =>
      cases hc : isContentFile n with
      | true =>
        rw [walkEntry_file_content n mt hs hc]
        simp only [List.mem_singleton, Prod.mk.injEq]
        constructor
        · rintro ⟨hp, hm⟩
          subst hp
          subst hm
          rw [hitEntry_file_one, qualPath_one]
          simp [hs, hc]
        · rintro ⟨h1, h2⟩
          cases p with
          | nil => simp [hitEntry_nil_path] at h1
          | cons x xs =>
            cases xs with
            | nil =>
              rw [hitEntry_file_one] at h1
              simp only [Bool.and_eq_true, beq_iff_eq] at h1
              exact ⟨by rw [h1.1], h1.2.symm⟩
            | cons y ys => simp [hitEntry_file_cons2] at h1
      | false =>
        rw [walkEntry_file_other n mt hs hc]
        simp only [List.not_mem_nil, false_iff]
        rintro ⟨h1, h2⟩
        cases p with
        | nil => simp [hitEntry_nil_path] at h1
        | cons x xs =>
          cases xs with
          | nil =>
            rw [hitEntry_file_one] at h1
            simp only [Bool.and_eq_true, beq_iff_eq] at h1
            rw [qualPath_one, h1.1, hs, hc] at h2
            simp at h2
          | cons y ys => simp [hitEntry_file_cons2] at h1
  | dir es =>
    cases hs : skipName n with
    | true =>
      rw [walkEntry_dir_skip n es hs]
      simp only [List.not_mem_nil, false_iff]
      rintro ⟨h1, h2⟩
      cases p with
      | nil => simp [hitEntry_nil_path] at h1
      | cons x xs =>
        rw [hitEntry_dir_cons] at h1
        simp only [Bool.and_eq_true, beq_iff_eq] at h1
        have hh := qualPath_head x xs h2
        rw [h1.1, hs] at hh
        simp at hh
    | false =>
      rw [walkEntry_dir_go n es hs]
      constructor
      · intro h
        obtain ⟨e, he, heq⟩ := List.mem_map.mp h
        obtain ⟨xs, mt⟩ := e
        simp only [Prod.mk.injEq] at heq
        obtain ⟨hp, hm⟩ := heq
        subst hp
        subst hm
        have hih := (mem_walkList es xs mt).mp he
        constructor
        · rw [hitEntry_dir_cons]
          simp [hih.1]
        · cases xs with
          | nil =>
            have hq := hih.2
            simp [qualPath] at hq
          | cons y ys =>
            rw [qualPath_cons2, hs]
            simpa using hih.2
      · rintro ⟨h1, h2⟩
        cases p with
        | nil => simp [hitEntry_nil_path] at h1
        | cons x xs =>
          rw [hitEntry_dir_cons] at h1
          simp only [Bool.and_eq_true, beq_iff_eq] at h1
          obtain ⟨hx, hhas⟩ := h1
          subst hx
          have hqxs : qualPath xs = true := by
            cases xs with
            | nil => simp [entriesHasFile_nil_path] at hhas
            | cons y ys =>
              rw [qualPath_cons2] at h2
              simp only [Bool.and_eq_true] at h2
              exact h2.2
          exact List.mem_map.mpr ⟨(xs, m), (mem_walkList es xs m).mpr ⟨hhas, hqxs⟩, rfl⟩

theorem mem_walkList (es : FSEntries) (p : List String) (m : Nat) :
    (p, m) ∈ walkList es ↔ entriesHasFile es p m = true ∧ qualPath p = true := by
  cases es with
  | nil =>
    simp only [walkList, List.not_mem_nil, false_iff, not_and, entriesHasFile]
    intro h
    exact absurd h Bool.false_ne_true
  | cons n t es =>
    simp only [walkList, List.mem_append, entriesHasFile, Bool.or_eq_true]
    rw [mem_walkEntry n t p m, mem_walkList es p m]
    constructor
    · rintro (⟨h1, h2⟩ | ⟨h1, h2⟩)
      · exact ⟨Or.inl h1, h2⟩
      · exact ⟨Or.inr h1, h2⟩
    · rintro ⟨h1 | h1, h2⟩
      · exact Or.inl ⟨h1, h2⟩
      · exact Or.inr ⟨h1, h2⟩

end

theorem mem_computeEntries (t : FSTree) (p : List String) (m : Nat) :
    (p, m) ∈ computeEntries t ↔ topQual t p m = true := by
  cases t with
  | file mt =>
    simp only [computeEntries, topQual, topHasFile, Bool.false_and,
      List.not_mem_nil, false_iff]
    exact Bool.false_ne_true
  | dir es =>
    simp only [computeEntries, topQual, topHasFile, Bool.and_eq_true]
    exact mem_walkList es p m

theorem walkEntry_shape (n : String) (t : FSTree) :
    ∀ e ∈ walkEntry n t, ∃ r, e.1 = n :: r := by
  intro e he
  cases t with
  | file m =>
    cases hs : skipName n with
    | true =>
      rw [walkEntry_file_skip n m hs] at he
      exact absurd he (List.not_mem_nil _)
    | false =>
      cases hc : isContentFile n with
      | true =>
        rw [walkEntry_file_content n m hs hc] at he
        simp only [List.mem_singleton] at he
        exact ⟨[], by rw [he]⟩
      | false =>
        rw [walkEntry_file_other n m hs hc] at he
        exact absurd he (List.not_mem_nil _)
  | dir es =>
    cases hs : skipName n with
    | true =>
      rw [walkEntry_dir_skip n es hs] at he
      exact absurd he (List.not_mem_nil _)
    | false =>
      rw [walkEntry_dir_go n es hs] at he
      obtain ⟨e2, _, heq⟩ := List.mem_map.mp he
      exact ⟨e2.1, by rw [← heq]⟩

theorem walkList_shape : (es : FSEntries) → ∀ e ∈ walkList es,
    ∃ n r, e.1 = n :: r ∧ n ∈ entryNames es
  | .nil => by
    intro e he
    exact absurd he (List.not_mem_nil _)
  | .cons n t es => by
    intro e he
    simp only [walkList, List.mem_append] at he
    cases he with
    | inl h =>
      obtain ⟨r, hr⟩ := walkEntry_shape n t e h
      exact ⟨n, r, hr, by simp [entryNames]⟩
    | inr h =>
      obtain ⟨n2, r, hr, hn⟩ := walkList_shape es e h
      exact ⟨n2, r, hr, by simp [entryNames, hn]⟩

mutual

theorem walkEntry_pairwise (n : String) (t : FSTree) (h : wfTree t = true) :
    (walkEntry n t).Pairwise (fun a b => a.1 ≠ b.1) := by
  cases t with
  | file m =>
    cases hs : skipName n with
    | true =>
      rw [walkEntry_file_skip n m hs]
      exact List.Pairwise.nil
    | false =>
      cases hc : isContentFile n with
      | true =>
        rw [walkEntry_file_content n m hs hc]
        exact List.pairwise_singleton _ _
      | false =>
        rw [walkEntry_file_other n m hs hc]
        exact List.Pairwise.nil
  | dir es =>
    cases hs : skipName n with
    | true =>
      rw [walkEntry_dir_skip n es hs]
      exact List.Pairwise.nil
    | false =>
      rw [walkEntry_dir_go n es hs]
      have hw : wfEntries es = true := h
      rw [List.pairwise_map]
      exact (walkList_pairwise es hw).imp (fun hab => by simpa using hab)

theorem walkList_pairwise (es : FSEntries) (h : wfEntries es = true) :
    (walkList es).Pairwise (fun a b => a.1 ≠ b.1) := by
  cases es with
  | nil => exact List.Pairwise.nil
  | cons n t es =>
    simp only [wfEntries, Bool.and_eq_true, Bool.not_eq_true'] at h
    obtain ⟨⟨hn, hw⟩, hes⟩ := h
    have hnotmem : n ∉ entryNames es := by simpa using hn
    simp only [walkList]
    apply List.pairwise_append.mpr
    refine ⟨walkEntry_pairwise n t hw, walkList_pairwise es hes, ?_⟩
    intro a ha b hb
    obtain ⟨r, hr⟩ := walkEntry_shape n t a ha
    obtain ⟨n2, r2, hr2, hn2⟩ := walkList_shape es b hb
    rw [hr, hr2]
    intro hcontra
    have hne : n = n2 := by
      injection hcontra with h1 h2
    exact hnotmem (hne ▸ hn2)

end

theorem computeEntries_nodup (t : FSTree) (h : wfTree t = true) :
    (computeEntries t).Nodup := by
  cases t with
  | file m => exact List.nodup_nil
  | dir es =>
    have hp := walkList_pairwise es h
    exact hp.imp (fun hab => fun hc => hab (by rw [hc]))

/-! ## The pre-hash entry order

The code sorts the entry strings `path:mtimeMs` (`entries.sort()`); for
well-formed trees this is the lexicographic order on `(path, mtime)` pairs
(component names contain no `/`, decimal mtimes contain no `:`). Any
comparison sort produces the same sorted list, so insertion sort is used
here. -/

/-- Generic boolean lexicographic strict order on lists, given a strict
order on elements. -/
def lexLT (lt : A → A → Bool) : List A → List A → Bool
  | [], [] => false
  | [], _ :: _ => true
  | _ :: _, [] => false
  | a :: as, b :: bs => if lt a b then true else if lt b a then false else lexLT lt as bs

theorem lexLT_cons (lt : A → A → Bool) (x y : A) (xs ys : List A) :
    lexLT lt (x :: xs) (y :: ys) =
      (if lt x y then true else if lt y x then false else lexLT lt xs ys) := rfl

theorem lexLT_asymm (lt : A → A → Bool)
    (hasym : ∀ a b, lt a b = true → lt b a = true → False) :
    ∀ a b, lexLT lt a b = true → lexLT lt b a = true → False
  | [], [], h1, _ => by simp [lexLT] at h1
  | [], _ :: _, _, h2 => by simp [lexLT] at h2
  | _ :: _, [], h1, _ => by simp [lexLT] at h1
  | x :: xs, y :: ys, h1, h2 => by
    rw [lexLT_cons] at h1 h2
    cases hxy : lt x y with
    | true =>
      cases hyx : lt y x with
      | true => exact hasym x y hxy hyx
      | false =>
        rw [if_neg (ne_true_of_eq_false hyx), if_pos hxy] at h2
        exact absurd h2 Bool.false_ne_true
    | false =>
      cases hyx : lt y x with
      | true =>
        rw [if_neg (ne_true_of_eq_false hxy), if_pos hyx] at h1
        exact absurd h1 Bool.false_ne_true
      | false =>
        rw [if_neg (ne_true_of_eq_false hxy), if_neg (ne_true_of_eq_false hyx)] at h1
        rw [if_neg (ne_true_of_eq_false hyx), if_neg (ne_true_of_eq_false hxy)] at h2
        exact lexLT_asymm lt hasym xs ys h1 h2

theorem lexLT_trans (lt : A → A → Bool)
    (htr : ∀ a b c, lt a b = true → lt b c = true → lt a c = true)
    (hconn : ∀ a b, lt a b = false → lt b a = false → a = b) :
    ∀ a b c, lexLT lt a b = true → lexLT lt b c = true → lexLT lt a c = true
  | [], [], _, h1, _ => by simp [lexLT] at h1
  | [], _ :: _, [], _, h2 => by simp [lexLT] at h2
  | [], _ :: _, _ :: _, _, _ => rfl
  | _ :: _, [], _, h1, _ => by simp [lexLT] at h1
  | _ :: _, _ :: _, [], _, h2 => by simp [lexLT] at h2
  | x :: xs, y :: ys, z :: zs, h1, h2 => by
    rw [lexLT_cons] at h1 h2 ⊢
    obtain hxy | hxy := Bool.eq_false_or_eq_true (lt x y)
    · obtain hyz | hyz := Bool.eq_false_or_eq_true (lt y z)
      · rw [if_pos (htr x y z hxy hyz)]
      · obtain hzy | hzy := Bool.eq_false_or_eq_true (lt z y)
        · rw [if_neg (ne_true_of_eq_false hyz), if_pos hzy] at h2
          exact absurd h2 Bool.false_ne_true
        · have heq : y = z := hconn y z hyz hzy
          subst heq
          rw [if_pos hxy]
    · obtain hyx | hyx := Bool.eq_false_or_eq_true (lt y x)
      · rw [if_neg (ne_true_of_eq_false hxy), if_pos hyx] at h1
        exact absurd h1 Bool.false_ne_true
      · have heq : x = y := hconn x y hxy hyx
        subst heq
        rw [if_neg (ne_true_of_eq_false hxy), if_neg (ne_true_of_eq_false hyx)] at h1
        obtain hxz | hxz := Bool.eq_false_or_eq_true (lt x z)
        · rw [if_pos hxz]
        · obtain hzx | hzx := Bool.eq_false_or_eq_true (lt z x)
          · rw [if_neg (ne_true_of_eq_false hxz), if_pos hzx] at h2
            exact absurd h2 Bool.false_ne_true
          · rw [if_neg (ne_true_of_eq_false hxz), if_neg (ne_true_of_eq_false hzx)] at h2 ⊢
            exact lexLT_trans lt htr hconn xs ys zs h1 h2

theorem lexLT_conn (lt : A → A → Bool)
    (hconn : ∀ a b, lt a b = false → lt b a = false → a = b) :
    ∀ a b : List A, lexLT lt a b = false → lexLT lt b a = false → a = b
  | [], [], _, _ => rfl
  | [], _ :: _, h1, _ => by simp [lexLT] at h1
  | _ :: _, [], _, h2 => by simp [lexLT] at h2
  | x :: xs, y :: ys, h1, h2 => by
    rw [lexLT_cons] at h1 h2
    cases hxy : lt x y with
    | true =>
      rw [if_pos hxy] at h1
      simp at h1
    | false =>
      cases hyx : lt y x with
      | true =>
        rw [if_pos hyx] at h2
        simp at h2
      | false =>
        have heq : x = y := hconn x y hxy hyx
        subst heq
        rw [if_neg (ne_true_of_eq_false hxy), if_neg (ne_true_of_eq_false hyx)] at h1
        rw [lexLT_conn lt hconn xs ys h1 (by
          rw [if_neg (ne_true_of_eq_false hyx), if_neg (ne_true_of_eq_false hxy)] at h2
          exact h2)]

/-- JS `<` on characters: comparison of the code-point value. -/
def charLT (a b : Char) : Bool := decide (a.toNat < b.toNat)

theorem charLT_asymm (a b : Char) (h1 : charLT a b = true) (h2 : charLT b a = true) :
    False := by
  simp only [charLT, decide_eq_true_eq] at h1 h2
  omega

theorem charLT_trans (a b c : Char) (h1 : charLT a b = true) (h2 : charLT b c = true) :
    charLT a c = true := by
  simp only [charLT, decide_eq_true_eq] at h1 h2 ⊢
  omega

theorem charLT_conn (a b : Char) (h1 : charLT a b = false) (h2 : charLT b a = false) :
    a = b := by
  simp only [charLT, decide_eq_false_iff_not, not_lt] at h1 h2
  exact Char.ext (UInt32.toNat.inj (Nat.le_antisymm h2 h1))

/-- JS `<` on strings: lexicographic comparison of the character
sequences. -/
def strLT (a b : String) : Bool := lexLT charLT a.data b.data

theorem strLT_asymm (a b : String) (h1 : strLT a b = true) (h2 : strLT b a = true) :
    False :=
  lexLT_asymm charLT charLT_asymm a.data b.data h1 h2

theorem strLT_trans (a b c : String) (h1 : strLT a b = true) (h2 : strLT b c = true) :
    strLT a c = true :=
  lexLT_trans charLT charLT_trans charLT_conn a.data b.data c.data h1 h2

theorem strLT_conn (a b : String) (h1 : strLT a b = false) (h2 : strLT b a = false) :
    a = b := by
  have hd : a.data = b.data := lexLT_conn charLT charLT_conn a.data b.data h1 h2
  cases a with
  | mk da =>
    cases b with
    | mk db => rw [show da = db from hd]

/-- The sort order of `entries.sort()`: lexicographic on the path
components, then on the mtime. -/
def pathLT (a b : List String) : Bool := lexLT strLT a b

def entryLE (e f : Entry) : Prop :=
  pathLT e.1 f.1 = true ∨ (e.1 = f.1 ∧ e.2 ≤ f.2)

instance : DecidableRel entryLE := fun e f =>
  inferInstanceAs (Decidable (pathLT e.1 f.1 = true ∨ (e.1 = f.1 ∧ e.2 ≤ f.2)))

theorem pathLT_asymm (a b : List String) (h1 : pathLT a b = true)
    (h2 : pathLT b a = true) : False :=
  lexLT_asymm strLT strLT_asymm a b h1 h2

theorem pathLT_trans (a b c : List String) (h1 : pathLT a b = true)
    (h2 : pathLT b c = true) : pathLT a c = true :=
  lexLT_trans strLT strLT_trans strLT_conn a b c h1 h2

theorem pathLT_conn (a b : List String) (h1 : pathLT a b = false)
    (h2 : pathLT b a = false) : a = b :=
  lexLT_conn strLT strLT_conn a b h1 h2

theorem entryLE_total : ∀ e f : Entry, entryLE e f ∨ entryLE f e := by
  intro e f
  cases hab : pathLT e.1 f.1 with
  | true => exact Or.inl (Or.inl hab)
  | false =>
    cases hba : pathLT f.1 e.1 with
    | true => exact Or.inr (Or.inl hba)
    | false =>
      have heq : e.1 = f.1 := pathLT_conn e.1 f.1 hab hba
      rcases Nat.le_total e.2 f.2 with h2 | h2
      · exact Or.inl (Or.inr ⟨heq, h2⟩)
      · exact Or.inr (Or.inr ⟨heq.symm, h2⟩)

theorem entryLE_trans : ∀ e f g : Entry, entryLE e f → entryLE f g → entryLE e g := by
  intro e f g h1 h2
  rcases h1 with h1 | ⟨h1a, h1b⟩
  · rcases h2 with h2 | ⟨h2a, h2b⟩
    · exact Or.inl (pathLT_trans _ _ _ h1 h2)
    · exact Or.inl (by rw [← h2a]; exact h1)
  · rcases h2 with h2 | ⟨h2a, h2b⟩
    · exact Or.inl (by rw [h1a]; exact h2)
    · exact Or.inr ⟨h1a.trans h2a, h1b.trans h2b⟩

theorem entryLE_antisymm : ∀ e f : Entry, entryLE e f → entryLE f e → e = f := by
  intro e f h1 h2
  rcases h1 with h1 | ⟨h1a, h1b⟩
  · rcases h2 with h2 | ⟨h2a, h2b⟩
    · exact (pathLT_asymm _ _ h1 h2).elim
    · rw [h2a] at h1
      exact (pathLT_asymm _ _ h1 h1).elim
  · rcases h2 with h2 | ⟨h2a, h2b⟩
    · rw [h1a] at h2
      exact (pathLT_asymm _ _ h2 h2).elim
    · exact Prod.ext_iff.mpr ⟨h1a, Nat.le_antisymm h1b h2b⟩

instance : IsTotal Entry entryLE := ⟨entryLE_total⟩

instance : IsTrans Entry entryLE := ⟨entryLE_trans⟩

instance : IsAntisymm Entry entryLE := ⟨entryLE_antisymm⟩

/-- The sorted pre-hash entry list — the input of the md5 digest in
`computeContentHash` (`entries.sort()` then join and hash). The digest is
modelled by this list itself (hash injectivity assumption). -/
def sortedEntries (t : FSTree) : List Entry :=
  List.insertionSort entryLE (computeEntries t)

theorem qualPath_iff : (p : List String) →
    (qualPath p = true ↔ ((∀ c ∈ p, skipName c = false) ∧
      ∃ n, p.getLast? = some n ∧ isContentFile n = true))
  | [] => by simp [qualPath]
  | [n] => by
    rw [qualPath_one]
    simp only [Bool.and_eq_true, Bool.not_eq_true', List.mem_singleton,
      List.getLast?_singleton, Option.some.injEq]
    constructor
    · rintro ⟨h1, h2⟩
      exact ⟨fun c hc => hc ▸ h1, n, rfl, h2⟩
    · rintro ⟨h1, n2, hn2, h2⟩
      exact ⟨h1 n rfl, hn2 ▸ h2⟩
  | n :: x :: xs => by
    rw [qualPath_cons2]
    simp only [Bool.and_eq_true, Bool.not_eq_true']
    rw [qualPath_iff (x :: xs), List.getLast?_cons_cons]
    constructor
    · rintro ⟨h1, h2, h3⟩
      refine ⟨fun c hc => ?_, h3⟩
      rcases List.mem_cons.mp hc with hc | hc
      · exact hc ▸ h1
      · exact h2 c hc
    · rintro ⟨h1, h3⟩
      exact ⟨h1 n (List.mem_cons_self n _), fun c hc => h1 c (List.mem_cons_of_mem n hc), h3⟩

/-- **C2.** The aggregate fingerprint walk (`computeContentHash`) collects
an entry for a file exactly when the file is present in the tree, no
component of its path is hidden (leading `.` or `_`), no component is the
asset/image directory or the navigation file `nav.md`, and the file has a
content extension (`.md`/`.json`): every qualifying content file
contributes a `(path, mtime)` entry and no excluded file contributes one. -/
theorem fingerprint_walk_exclusions (t : FSTree) (p : List String) (m : Nat) :
    (p, m) ∈ computeEntries t ↔
      (topHasFile t p m = true ∧
        (∀ c ∈ p, skipName c = false) ∧
        ∃ n, p.getLast? = some n ∧ isContentFile n = true) := by
  rw [mem_computeEntries]
  simp only [topQual, Bool.and_eq_true]
  rw [qualPath_iff p]

/-- **C3.** Over the sorted pre-hash entry list (the md5 input, with hash
injectivity assumed): two well-formed filesystem states have equal
aggregate fingerprints iff they have exactly the same qualifying
`(path, mtime)` entries. So adding, deleting, renaming, or changing the
mtime of a qualifying content file changes the fingerprint, while states
differing only in excluded files/directories have equal fingerprints. -/
theorem fingerprint_sensitivity (t t2 : FSTree)
    (h : wfTree t = true) (h2 : wfTree t2 = true) :
    sortedEntries t = sortedEntries t2 ↔ ∀ p m, topQual t p m = topQual t2 p m := by
  constructor
  · intro hs p m
    have hp1 := List.perm_insertionSort entryLE (computeEntries t)
    have hp2 := List.perm_insertionSort entryLE (computeEntries t2)
    have hmid : List.Perm (sortedEntries t) (computeEntries t2) := by
      rw [hs]
      exact hp2
    have hperm : List.Perm (computeEntries t) (computeEntries t2) := hp1.symm.trans hmid
    have hmem : (p, m) ∈ computeEntries t ↔ (p, m) ∈ computeEntries t2 :=
      hperm.mem_iff
    rw [mem_computeEntries, mem_computeEntries] at hmem
    cases hq1 : topQual t p m <;> cases hq2 : topQual t2 p m <;> simp_all
  · intro hq
    have hperm : List.Perm (computeEntries t) (computeEntries t2) := by
      rw [List.perm_ext_iff_of_nodup (computeEntries_nodup t h) (computeEntries_nodup t2 h2)]
      intro a
      obtain ⟨p, m⟩ := a
      rw [mem_computeEntries, mem_computeEntries, hq p m]
    exact @List.eq_of_perm_of_sorted Entry entryLE _ _ _
      (((List.perm_insertionSort entryLE _).trans hperm).trans
        (List.perm_insertionSort entryLE _).symm)
      (List.sorted_insertionSort entryLE _)
      (List.sorted_insertionSort entryLE _)

/-! ## The aggregate context (`/llms.txt`) cache

State machine model of `getCachedLlmsTxt` (brand.ts lines 202–322). The
md5 content hash is modelled by its pre-hash input `computeContentHash`
(the sorted entry list); the `generateLlmText` collaborator is a
parameter. -/

/-- `l.join(sep)` of JS. -/
def joinSep (sep : String) : List String → String
  | [] => ""
  | [s] => s
  | s :: rest => s ++ sep ++ joinSep sep rest

/-- `computeContentHash` (brand.ts lines 220–261): walk, sort, hash. The
digest is modelled by the sorted entry list itself (md5 injectivity
assumed). -/
def computeContentHash (t : FSTree) : List Entry := sortedEntries t

/-- `LlmGeneratorOptions`: the optional sections filter; `[]` models an
absent or empty filter (both take the full-site path in the code). -/
structure LlmOptions where
  sections : List String
deriving DecidableEq

/-- The module-level cache state of the llms.txt cache (brand.ts lines
202–207): the full-site entry (`cachedLlmsTxt`/`cachedLlmsHash`) and the
section-scoped `Map` (`sectionCache`). The monitoring-only
`cachedLlmsGeneratedAt` timestamp is omitted. -/
structure LlmsCacheState where
  cachedLlmsTxt : Option String
  cachedLlmsHash : Option (List Entry)
  sectionCache : List (String × String × List Entry)
deriving DecidableEq

/-- `Map.prototype.get` on the section cache. -/
def mapLookup (k : String) :
    List (String × String × List Entry) → Option (String × List Entry)
  | [] => none
  | (k2, v) :: rest => if k = k2 then some v else mapLookup k rest

/-- `Map.prototype.set` on the section cache. -/
def mapSet (k : String) (v : String × List Entry) :
    List (String × String × List Entry) → List (String × String × List Entry)
  | [] => [(k, v)]
  | (k2, v2) :: rest => if k = k2 then (k, v) :: rest else (k2, v2) :: mapSet k v rest

theorem mapLookup_mapSet_self (k : String) (v : String × List Entry) :
    (l : List (String × String × List Entry)) →
      mapLookup k (mapSet k v l) = some v
  | [] => by simp [mapSet, mapLookup]
  | (k2, v2) :: rest => by
    by_cases h : k = k2
    · simp [mapSet, mapLookup, h]
    · simp [mapSet, mapLookup, h, mapLookup_mapSet_self k v rest]

theorem mapLookup_mapSet_ne (k k2 : String) (h : k ≠ k2) (v : String × List Entry) :
    (l : List (String × String × List Entry)) →
      mapLookup k (mapSet k2 v l) = mapLookup k l
  | [] => by simp [mapSet, mapLookup, h]
  | (k3, v3) :: rest => by
    by_cases h2 : k2 = k3
    · subst h2
      simp [mapSet, mapLookup, h]
    · by_cases h3 : k = k3
      · simp [mapSet, mapLookup, h2, h3]
      · simp [mapSet, mapLookup, h2, h3, mapLookup_mapSet_ne k k2 h v rest]

/-- `options.sections.sort().join(',')` (brand.ts line 285): the section
cache key. -/
def sectionKey (sections : List String) : String :=
  joinSep "," (List.insertionSort (fun a b => strLT b a = false) sections)

/-- Result of one `getCachedLlmsTxt` call: the returned text, the new
cache state, and whether the `generateLlmText` collaborator was invoked. -/
structure LlmsResult where
  text : String
  state : LlmsCacheState
  invoked : Bool
deriving DecidableEq

/-- `getCachedLlmsTxt` (brand.ts lines 276–322) as a state transformer.
The full-site hit test mirrors the JS `cachedLlmsTxt && cachedLlmsHash ===
currentHash`: the stored text is itself tested for truthiness, so an
empty stored string never hits. Section entries are objects, hence always
truthy; their hit test compares the stored hash with the full-tree
`computeContentHash` of the current filesystem. -/
def getCachedLlmsTxt (gen : FSTree → LlmOptions → String) (fs : FSTree)
    (options : LlmOptions) (s : LlmsCacheState) : LlmsResult :=
  if options.sections ≠ [] then
    let key := sectionKey options.sections
    let currentHash := computeContentHash fs
    match mapLookup key s.sectionCache with
    | some (text, hash) =>
      if hash = currentHash then
        ⟨text, s, false⟩
      else
        let text2 := gen fs options
        ⟨text2, { s with sectionCache := mapSet key (text2, currentHash) s.sectionCache }, true⟩
    | none =>
      let text2 := gen fs options
      ⟨text2, { s with sectionCache := mapSet key (text2, currentHash) s.sectionCache }, true⟩
  else
    let currentHash := computeContentHash fs
    match s.cachedLlmsTxt with
    | some text =>
      if text ≠ "" ∧ s.cachedLlmsHash = some currentHash then
        ⟨text, s, false⟩
      else
        let text2 := gen fs options
        ⟨text2, ⟨some text2, some currentHash, s.sectionCache⟩, true⟩
    | none =>
      let text2 := gen fs options
      ⟨text2, ⟨some text2, some currentHash, s.sectionCache⟩, true⟩

/-- Modelled from the spec: `generateLlmText` (module `llm-generator`,
which is not under `src/`) renders the aggregate context document — a
site-name header followed by the rendered text of every qualifying file in
scope (restricted to the requested top-level sections when a filter is
present), concatenated with structural path headers. `render` is the
per-file render collaborator. -/
def generateLlmText (render : List String → String) (siteName : String)
    (t : FSTree) (options : LlmOptions) : String :=
  let inScope := fun (e : Entry) =>
    options.sections = [] ∨ e.1.headD "" ∈ options.sections
  let body := ((sortedEntries t).filter (fun e => decide (inScope e))).map
    (fun e => "\n## " ++ joinSep "/" e.1 ++ "\n" ++ render e.1)
  "# " ++ siteName ++ "\n" ++ joinSep "" body

/-- The modelled generator output always carries the site-name header, so
it is never the empty string. -/
theorem generateLlmText_ne_empty (render : List String → String)
    (siteName : String) (t : FSTree) (options : LlmOptions) :
    generateLlmText render siteName t options ≠ "" := by
  intro h
  have hlen := congrArg String.length h
  rw [generateLlmText] at hlen
  rw [String.length_append, String.length_append, String.length_append] at hlen
  have h2 : ("# " : String).length = 2 := rfl
  have h0 : ("" : String).length = 0 := rfl
  omega

theorem getCachedLlmsTxt_full_hit (gen : FSTree → LlmOptions → String)
    (fs : FSTree) (options : LlmOptions) (s : LlmsCacheState) (text : String)
    (hsec : options.sections = []) (hct : s.cachedLlmsTxt = some text)
    (hne2 : text ≠ "") (hh : s.cachedLlmsHash = some (computeContentHash fs)) :
    getCachedLlmsTxt gen fs options s = ⟨text, s, false⟩ := by
  unfold getCachedLlmsTxt
  rw [if_neg (by simp [hsec])]
  simp only [hct]
  rw [if_pos ⟨hne2, hh⟩]

theorem getCachedLlmsTxt_full_miss (gen : FSTree → LlmOptions → String)
    (fs : FSTree) (options : LlmOptions) (s : LlmsCacheState)
    (hsec : options.sections = [])
    (hmiss : ¬∃ text, s.cachedLlmsTxt = some text ∧ text ≠ "" ∧
      s.cachedLlmsHash = some (computeContentHash fs)) :
    getCachedLlmsTxt gen fs options s =
      ⟨gen fs options,
        ⟨some (gen fs options), some (computeContentHash fs), s.sectionCache⟩,
        true⟩ := by
  unfold getCachedLlmsTxt
  rw [if_neg (by simp [hsec])]
  cases hct : s.cachedLlmsTxt with
  | none => simp
  | some text =>
    have hno : ¬(text ≠ "" ∧ s.cachedLlmsHash = some (computeContentHash fs)) :=
      fun ⟨a, b⟩ => hmiss ⟨text, hct, a, b⟩
    simp only []
    rw [if_neg hno]

theorem getCachedLlmsTxt_sections_hit (gen : FSTree → LlmOptions → String)
    (fs : FSTree) (options : LlmOptions) (s : LlmsCacheState) (text : String)
    (hsec : options.sections ≠ [])
    (hlook : mapLookup (sectionKey options.sections) s.sectionCache =
      some (text, computeContentHash fs)) :
    getCachedLlmsTxt gen fs options s = ⟨text, s, false⟩ := by
  unfold getCachedLlmsTxt
  rw [if_pos hsec]
  simp [hlook]

theorem getCachedLlmsTxt_sections_miss (gen : FSTree → LlmOptions → String)
    (fs : FSTree) (options : LlmOptions) (s : LlmsCacheState)
    (hsec : options.sections ≠ [])
    (hmiss : ∀ text, mapLookup (sectionKey options.sections) s.sectionCache ≠
      some (text, computeContentHash fs)) :
    getCachedLlmsTxt gen fs options s =
      ⟨gen fs options,
        ⟨s.cachedLlmsTxt, s.cachedLlmsHash,
          mapSet (sectionKey options.sections)
            (gen fs options, computeContentHash fs) s.sectionCache⟩,
        true⟩ := by
  unfold getCachedLlmsTxt
  rw [if_pos hsec]
  cases hlook : mapLookup (sectionKey options.sections) s.sectionCache with
  | none => simp [hlook]
  | some tv =>
    obtain ⟨text, hash⟩ := tv
    have hh : hash ≠ computeContentHash fs := fun he => hmiss text (by rw [hlook, he])
    simp [hlook, hh]

/-- **C6.** Repeated `getCachedLlmsTxt` calls with no intervening
filesystem change (the recomputed fingerprint equals the stored one)
return the identical stored text, leave the state unchanged, and do not
re-invoke the generation collaborator after the first population. The
hypothesis that the generated document is nonempty reflects the real
`generateLlmText`, whose output always starts with the site-name header;
it is needed because the full-site hit test checks the stored text's JS
truthiness. -/
theorem repeated_get_no_reinvoke (gen : FSTree → LlmOptions → String)
    (fs : FSTree) (options : LlmOptions) (s : LlmsCacheState)
    (hne : gen fs options ≠ "") :
    getCachedLlmsTxt gen fs options (getCachedLlmsTxt gen fs options s).state =
      ⟨(getCachedLlmsTxt gen fs options s).text,
        (getCachedLlmsTxt gen fs options s).state, false⟩ := by
  by_cases hsec : options.sections = []
  · by_cases hex : ∃ text, s.cachedLlmsTxt = some text ∧ text ≠ "" ∧
      s.cachedLlmsHash = some (computeContentHash fs)
    · obtain ⟨text, hct, hne2, hh⟩ := hex
      rw [getCachedLlmsTxt_full_hit gen fs options s text hsec hct hne2 hh]
      exact getCachedLlmsTxt_full_hit gen fs options s text hsec hct hne2 hh
    · rw [getCachedLlmsTxt_full_miss gen fs options s hsec hex]
      exact getCachedLlmsTxt_full_hit gen fs options _ _ hsec rfl hne rfl
  · have hsec2 : options.sections ≠ [] := hsec
    by_cases hex : ∃ text, mapLookup (sectionKey options.sections) s.sectionCache =
      some (text, computeContentHash fs)
    · obtain ⟨text, hlook⟩ := hex
      rw [getCachedLlmsTxt_sections_hit gen fs options s text hsec2 hlook]
      exact getCachedLlmsTxt_sections_hit gen fs options s text hsec2 hlook
    · have hmiss : ∀ text, mapLookup (sectionKey options.sections) s.sectionCache ≠
        some (text, computeContentHash fs) := fun text he => hex ⟨text, he⟩
      rw [getCachedLlmsTxt_sections_miss gen fs options s hsec2 hmiss]
      exact getCachedLlmsTxt_sections_hit gen fs options _ _ hsec2
        (mapLookup_mapSet_self _ _ _)

/-- **C1 (amended).** Section-scoped calls store independent entries: a
call with a non-empty sections filter leaves the full-tree entry and every
other section key's entry unchanged, and its own entry is keyed by the
sorted section set. But each section entry is validated against the
FULL-TREE fingerprint: the call is a hit (generator not re-invoked,
stored text returned) iff the stored entry carries the current full-tree
fingerprint — so a content change anywhere under the root, including
outside the requested sections, invalidates the entry. -/
theorem sectionCache_fullTree_validation (gen : FSTree → LlmOptions → String)
    (fs : FSTree) (options : LlmOptions) (s : LlmsCacheState)
    (hsec : options.sections ≠ []) :
    ((getCachedLlmsTxt gen fs options s).state.cachedLlmsTxt = s.cachedLlmsTxt) ∧
    ((getCachedLlmsTxt gen fs options s).state.cachedLlmsHash = s.cachedLlmsHash) ∧
    (∀ k, k ≠ sectionKey options.sections →
      mapLookup k (getCachedLlmsTxt gen fs options s).state.sectionCache =
        mapLookup k s.sectionCache) ∧
    ((getCachedLlmsTxt gen fs options s).invoked = false ↔
      mapLookup (sectionKey options.sections) s.sectionCache =
        some ((getCachedLlmsTxt gen fs options s).text, computeContentHash fs)) := by
  by_cases hex : ∃ text, mapLookup (sectionKey options.sections) s.sectionCache =
    some (text, computeContentHash fs)
  · obtain ⟨text, hlook⟩ := hex
    rw [getCachedLlmsTxt_sections_hit gen fs options s text hsec hlook]
    exact ⟨rfl, rfl, fun k _ => rfl, by simp [hlook]⟩
  · have hmiss : ∀ text, mapLookup (sectionKey options.sections) s.sectionCache ≠
      some (text, computeContentHash fs) := fun text he => hex ⟨text, he⟩
    rw [getCachedLlmsTxt_sections_miss gen fs options s hsec hmiss]
    refine ⟨rfl, rfl, fun k hk => mapLookup_mapSet_ne k _ hk _ _, ?_⟩
    simp only [Bool.true_eq_false, false_iff]
    exact hmiss (gen fs options)

/-- Generator used in the concrete llms.txt cache scenarios. -/
def c1Gen : FSTree → LlmOptions → String := fun _ _ => "CTX"

/-- Content root with an `api` section and a `guides` section. -/
def c1FsA : FSTree :=
  .dir (.cons "api" (.dir (.cons "a.md" (.file 1) .nil))
    (.cons "guides" (.dir (.cons "g.md" (.file 1) .nil)) .nil))

/-- Same root after touching only `guides/g.md` (mtime 1 → 2). -/
def c1FsB : FSTree :=
  .dir (.cons "api" (.dir (.cons "a.md" (.file 1) .nil))
    (.cons "guides" (.dir (.cons "g.md" (.file 2) .nil)) .nil))

/-- State after `getCachedLlmsTxt` populated the `api` section entry. -/
def c1State1 : LlmsCacheState :=
  (getCachedLlmsTxt c1Gen c1FsA ⟨["api"]⟩ ⟨none, none, []⟩).state

/-- **C1 counterexample.** After the `api` section entry is populated
against `c1FsA`, a content change touching only `guides/g.md` (the `api`
subtree's walk entries are unchanged) makes the next `["api"]` call a
MISS: the generator is re-invoked, refuting the claim that the section
entry remains a cache hit after changes outside its section. -/
theorem sectionCache_outside_invalidation_cex :
    ((computeEntries c1FsA).filter (fun e => e.1.headD "" == "api") =
      (computeEntries c1FsB).filter (fun e => e.1.headD "" == "api")) ∧
    (mapLookup "api" c1State1.sectionCache).isSome = true ∧
    (getCachedLlmsTxt c1Gen c1FsB ⟨["api"]⟩ c1State1).invoked = true := by
  decide

/-- Closed instance of the amended C1 theorem: a `["api"]`-scoped call on
the empty state leaves other section keys (here `"guides"`) untouched. -/
theorem sectionCache_fullTree_validation_witness :
    mapLookup "guides"
        (getCachedLlmsTxt c1Gen c1FsA ⟨["api"]⟩ ⟨none, none, []⟩).state.sectionCache =
      mapLookup "guides" ([] : List (String × String × List Entry)) :=
  (sectionCache_fullTree_validation c1Gen c1FsA ⟨["api"]⟩ ⟨none, none, []⟩
    (by decide)).2.2.1 "guides" (by decide)

/-- Closed instance of the C6 idempotence theorem at the spec-modelled
generator (whose output is nonempty by construction). -/
theorem repeated_get_no_reinvoke_witness :
    getCachedLlmsTxt (generateLlmText (fun _ => "doc") "f0") c1FsA ⟨[]⟩
        (getCachedLlmsTxt (generateLlmText (fun _ => "doc") "f0") c1FsA ⟨[]⟩
          ⟨none, none, []⟩).state =
      ⟨(getCachedLlmsTxt (generateLlmText (fun _ => "doc") "f0") c1FsA ⟨[]⟩
          ⟨none, none, []⟩).text,
        (getCachedLlmsTxt (generateLlmText (fun _ => "doc") "f0") c1FsA ⟨[]⟩
          ⟨none, none, []⟩).state, false⟩ :=
  repeated_get_no_reinvoke (generateLlmText (fun _ => "doc") "f0") c1FsA ⟨[]⟩
    ⟨none, none, []⟩ (generateLlmText_ne_empty _ _ _ _)

/-- Two content roots differing only in an excluded (`_`-prefixed) file's
mtime. -/
def c3TreeA : FSTree :=
  .dir (.cons "a.md" (.file 1) (.cons "_config.md" (.file 5) .nil))

/-- Same root with the excluded file touched. -/
def c3TreeB : FSTree :=
  .dir (.cons "a.md" (.file 1) (.cons "_config.md" (.file 6) .nil))

/-- Closed instance of the C3 sensitivity theorem: the two concrete roots
above have equal sorted entry lists, hence equal qualifying sets. -/
theorem fingerprint_sensitivity_witness :
    topQual c3TreeA ["a.md"] 1 = topQual c3TreeB ["a.md"] 1 :=
  (fingerprint_sensitivity c3TreeA c3TreeB (by decide) (by decide)).mp
    (by decide) ["a.md"] 1

/-! ## The directory settings cache (`config.ts`) -/

/-- A frontmatter value as produced by `yaml.parse`. -/
inductive FmVal where
  | str : String → FmVal
  | num : Int → FmVal
  | bool : Bool → FmVal
deriving DecidableEq

/-- A parsed frontmatter object: field name to value. -/
abbrev Frontmatter := List (String × FmVal)

def fmGet : Frontmatter → String → Option FmVal
  | [], _ => none
  | (k2, v) :: rest, k => if k = k2 then some v else fmGet rest k

/-- JS truthiness of a frontmatter field access. -/
def fmTruthy : Option FmVal → Bool
  | none => false
  | some (.str s) => !(s == "")
  | some (.num n) => !(n == 0)
  | some (.bool b) => b

/-- The raw value used in a string position (the code casts with
`as string`; a truthy non-string value would be carried through, rendered
here by its string coercion). -/
def fmToString : FmVal → String
  | .str s => s
  | .num n => toString n
  | .bool b => if b then "true" else "false"

/-- `(fm.field as string) || default`. -/
def strOr (v : Option FmVal) (d : String) : String :=
  if fmTruthy v then
    match v with
    | some x => fmToString x
    | none => d
  else d

/-- `DirectoryConfig` (config.ts lines 29–41); the layout/date-format
string unions are modelled as strings. -/
structure DirectoryConfig where
  layout : String
  title : String
  description : String
  postsPerPage : Int
  defaultAuthor : String
  showToc : Bool
  dateFormat : String
  heroImage : String
  heroSubtitle : String
deriving DecidableEq

def DEFAULT_DOCS_CONFIG : DirectoryConfig :=
  ⟨"docs", "", "", 10, "", true, "long", "", ""⟩

def DEFAULT_BLOG_CONFIG : DirectoryConfig :=
  ⟨"blog", "Blog", "", 10, "", false, "long", "", ""⟩

/-- `path.replace(/^\.\//, '')`. -/
def stripDotSlash (p : String) : String :=
  if strStarts p "./" then ⟨p.data.drop 2⟩ else p

/-- `resolveAssetUrl` (config.ts lines 116–121): absolute URLs pass
through, content-relative paths map under `/api/content/`. -/
def resolveAssetUrl (path : String) : String :=
  if path = "" then ""
  else if strStarts path "http://" || strStarts path "https://" then path
  else "/api/content/" ++ stripDotSlash path

/-- The text before the first occurrence of `sep` in `cs` (`none` when
`sep` does not occur). -/
def textBefore (sep : List Char) : List Char → Option (List Char)
  | [] => if sep.isEmpty then some [] else none
  | c :: rest =>
    if sep.isPrefixOf (c :: rest) then some []
    else (textBefore sep rest).map (c :: ·)

/-- The frontmatter regex `^---\n([\s\S]*?)\n---`: the content must start
with `---\n` and the (lazy) capture is the text before the first
subsequent `\n---`. -/
def extractFrontmatterBlock (content : String) : Option String :=
  if strStarts content "---\n" then
    match textBefore ("\n---".data) (content.data.drop 4) with
    | some cs => some ⟨cs⟩
    | none => none
  else none

/-- `extractConfigFrontmatter` (config.ts lines 96–106). `yamlParse`
models `yaml.parse`; `none` covers both a thrown parse error (caught with
a warning) and a `null` result (`|| {}`). -/
def extractConfigFrontmatter (yamlParse : String → Option Frontmatter)
    (content : String) : Frontmatter :=
  match extractFrontmatterBlock content with
  | none => []
  | some y =>
    match yamlParse y with
    | some fm => fm
    | none => []

/-- Outcome of `existsSync` plus `readFileSync` on a `_config.md` path. -/
inductive ConfigFile where
  | absent
  | unreadable
  | content : String → ConfigFile
deriving DecidableEq

/-- The configuration built from the extracted frontmatter (the return
object of `parseConfigFile`, config.ts lines 135–150). -/
def buildConfig (fm : Frontmatter) : DirectoryConfig :=
    let layout := if fmGet fm "layout" = some (.str "blog") then "blog" else "docs"
    let defaults := if layout = "blog" then DEFAULT_BLOG_CONFIG else DEFAULT_DOCS_CONFIG
    { layout := layout
      title := strOr (fmGet fm "title") defaults.title
      description := strOr (fmGet fm "description") defaults.description
      postsPerPage :=
        match fmGet fm "posts_per_page" with
        | some (.num n) => n
        | _ => defaults.postsPerPage
      defaultAuthor := strOr (fmGet fm "default_author") defaults.defaultAuthor
      showToc :=
        match fmGet fm "show_toc" with
        | some (.bool b) => b
        | _ => defaults.showToc
      dateFormat :=
        match fmGet fm "date_format" with
        | some (.str s) =>
          if s = "long" ∨ s = "short" ∨ s = "relative" then s else defaults.dateFormat
        | _ => defaults.dateFormat
      heroImage := resolveAssetUrl (strOr (fmGet fm "hero_image") "")
      heroSubtitle := strOr (fmGet fm "hero_subtitle") defaults.heroSubtitle }

/-- `parseConfigFile` (config.ts lines 130–155). A `readFileSync` throw
(`absent`/`unreadable`) is caught: docs defaults plus a logged warning. -/
def parseConfigFile (yamlParse : String → Option Frontmatter) :
    ConfigFile → DirectoryConfig
  | .absent => DEFAULT_DOCS_CONFIG
  | .unreadable => DEFAULT_DOCS_CONFIG
  | .content c => buildConfig (extractConfigFrontmatter yamlParse c)

/-- Module-level cache state (config.ts lines 75–77): the map plus the
single cache-wide `cacheTimestamp`, refreshed on every store. -/
structure ConfigCacheState where
  configCache : List (String × DirectoryConfig)
  cacheTimestamp : Nat
deriving DecidableEq

def CACHE_TTL : Nat := 5000

/-- `isCacheValid` (config.ts lines 79–82): always valid in production; in
development, valid while the cache-wide timestamp is younger than the
TTL. -/
def isCacheValid (production : Bool) (now cacheTimestamp : Nat) : Bool :=
  if production then true else decide (now - cacheTimestamp < CACHE_TTL)

theorem isCacheValid_iff (production : Bool) (now ts : Nat) :
    isCacheValid production now ts = true ↔
      (production = true ∨ now - ts < CACHE_TTL) := by
  unfold isCacheValid
  cases production <;> simp

def cfgLookup : List (String × DirectoryConfig) → String → Option DirectoryConfig
  | [], _ => none
  | (k2, v) :: rest, k => if k = k2 then some v else cfgLookup rest k

def cfgSet (k : String) (v : DirectoryConfig) :
    List (String × DirectoryConfig) → List (String × DirectoryConfig)
  | [] => [(k, v)]
  | (k2, v2) :: rest => if k = k2 then (k, v) :: rest else (k2, v2) :: cfgSet k v rest

/-- `dirPath.replace(/^\//, '').replace(/\/$/, '')`. -/
def normalizeDir (d : String) : String :=
  let d1 := if strStarts d "/" then (⟨d.data.drop 1⟩ : String) else d
  if strEnds d1 "/" then ⟨d1.data.dropLast⟩ else d1

/-- `path.join(contentDir, normalizedDir)`; an empty relative directory
resolves to the content root itself. -/
def joinPath (a b : String) : String := if b = "" then a else a ++ "/" ++ b

/-- Environment of the resolver: `NODE_ENV === 'production'`,
`process.env.F0_MODE || ''`, and the public site name/description
environment variables (empty string = unset, matching JS falsiness). -/
structure ConfigEnv where
  production : Bool
  f0Mode : String
  siteName : String
  siteDescription : String
deriving DecidableEq

/-- The root-level blog default applied when `F0_MODE=blog` (config.ts
lines 186–196). -/
def blogModeConfig (env : ConfigEnv) : DirectoryConfig :=
  { DEFAULT_BLOG_CONFIG with
    title := if env.siteName = "" then "Blog" else env.siteName
    description := env.siteDescription }

/-- One `resolveDirectoryConfig` call: the returned settings, the new
cache state, and whether the resolver did the work (consulted the
filesystem and stored an entry) rather than serving the cache. -/
structure ConfigResult where
  config : DirectoryConfig
  state : ConfigCacheState
  computed : Bool
deriving DecidableEq

/-- `resolveDirectoryConfig` (config.ts lines 164–203) as a state
transformer. `fs` maps a directory's full path to its `_config.md` read
outcome; `now` is the injected `Date.now()`. The locals `normalizedDir`
and `` cacheKey = `${contentDir}:${normalizedDir}` `` of the source are
inlined. -/
def resolveDirectoryConfig (env : ConfigEnv) (fs : String → ConfigFile)
    (yamlParse : String → Option Frontmatter) (now : Nat)
    (contentDir dirPath : String) (s : ConfigCacheState) : ConfigResult :=
  match cfgLookup s.configCache (contentDir ++ ":" ++ normalizeDir dirPath),
      isCacheValid env.production now s.cacheTimestamp with
  | some c, true => ⟨c, s, false⟩
  | _, _ =>
    match fs (joinPath contentDir (normalizeDir dirPath)) with
    | .absent =>
      if normalizeDir dirPath = "" ∧ env.f0Mode = "blog" then
        ⟨blogModeConfig env,
          ⟨cfgSet (contentDir ++ ":" ++ normalizeDir dirPath) (blogModeConfig env)
            s.configCache, now⟩, true⟩
      else
        ⟨DEFAULT_DOCS_CONFIG,
          ⟨cfgSet (contentDir ++ ":" ++ normalizeDir dirPath) DEFAULT_DOCS_CONFIG
            s.configCache, now⟩, true⟩
    | f =>
      ⟨parseConfigFile yamlParse f,
        ⟨cfgSet (contentDir ++ ":" ++ normalizeDir dirPath)
          (parseConfigFile yamlParse f) s.configCache, now⟩, true⟩

theorem resolveDirectoryConfig_hit (env : ConfigEnv) (fs : String → ConfigFile)
    (yamlParse : String → Option Frontmatter) (now : Nat)
    (contentDir dirPath : String) (s : ConfigCacheState) (c : DirectoryConfig)
    (hl : cfgLookup s.configCache (contentDir ++ ":" ++ normalizeDir dirPath) = some c)
    (hv : isCacheValid env.production now s.cacheTimestamp = true) :
    resolveDirectoryConfig env fs yamlParse now contentDir dirPath s = ⟨c, s, false⟩ := by
  unfold resolveDirectoryConfig
  rw [hl, hv]

theorem resolveDirectoryConfig_miss (env : ConfigEnv) (fs : String → ConfigFile)
    (yamlParse : String → Option Frontmatter) (now : Nat)
    (contentDir dirPath : String) (s : ConfigCacheState)
    (h : cfgLookup s.configCache (contentDir ++ ":" ++ normalizeDir dirPath) = none ∨
      isCacheValid env.production now s.cacheTimestamp = false) :
    (resolveDirectoryConfig env fs yamlParse now contentDir dirPath s).computed = true := by
  unfold resolveDirectoryConfig
  rcases h with h | h
  · cases hv : isCacheValid env.production now s.cacheTimestamp
    all_goals
      rw [h]
      cases hf : fs (joinPath contentDir (normalizeDir dirPath))
      all_goals first
        | rfl
        | (split_ifs <;> rfl)
  · cases hl : cfgLookup s.configCache (contentDir ++ ":" ++ normalizeDir dirPath)
    all_goals
      rw [h]
      cases hf : fs (joinPath contentDir (normalizeDir dirPath))
      all_goals first
        | rfl
        | (split_ifs <;> rfl)

/-- **C7 (amended).** In production a directory settings entry, once
computed, is served from the cache forever (the validity test is
constantly true). In development the cache-validity test is GLOBAL, not
per-entry: a lookup is a cache hit iff the key is present and fewer than
5000 ms have passed since the most recent computation of ANY entry (the
single cache-wide `cacheTimestamp`, refreshed on every store). -/
theorem configCache_global_ttl (env : ConfigEnv) (fs : String → ConfigFile)
    (yamlParse : String → Option Frontmatter) (now : Nat)
    (contentDir dirPath : String) (s : ConfigCacheState) :
    ((resolveDirectoryConfig env fs yamlParse now contentDir dirPath s).computed = false ↔
      (∃ c, cfgLookup s.configCache (contentDir ++ ":" ++ normalizeDir dirPath) = some c ∧
        (env.production = true ∨ now - s.cacheTimestamp < CACHE_TTL))) ∧
    (∀ c, cfgLookup s.configCache (contentDir ++ ":" ++ normalizeDir dirPath) = some c →
      env.production = true →
      resolveDirectoryConfig env fs yamlParse now contentDir dirPath s = ⟨c, s, false⟩) := by
  constructor
  · constructor
    · intro h
      cases hl : cfgLookup s.configCache (contentDir ++ ":" ++ normalizeDir dirPath) with
      | none =>
        have hc := resolveDirectoryConfig_miss env fs yamlParse now contentDir dirPath s
          (Or.inl hl)
        rw [hc] at h
        simp at h
      | some c =>
        cases hv : isCacheValid env.production now s.cacheTimestamp with
        | false =>
          have hc := resolveDirectoryConfig_miss env fs yamlParse now contentDir dirPath s
            (Or.inr hv)
          rw [hc] at h
          simp at h
        | true =>
          exact ⟨c, rfl, (isCacheValid_iff _ _ _).mp hv⟩
    · rintro ⟨c, hc, hor⟩
      rw [resolveDirectoryConfig_hit env fs yamlParse now contentDir dirPath s c hc
        ((isCacheValid_iff _ _ _).mpr hor)]
  · intro c hc hprod
    exact resolveDirectoryConfig_hit env fs yamlParse now contentDir dirPath s c hc
      ((isCacheValid_iff _ _ _).mpr (Or.inl hprod))

/-- Development environment used in the settings-cache scenarios. -/
def c7Env : ConfigEnv := ⟨false, "", "", ""⟩

/-- Initial filesystem: no `_config.md` anywhere. -/
def c7Fs1 : String → ConfigFile := fun _ => .absent

/-- `yaml.parse` for the single document appearing in the scenario. -/
def c7Yaml : String → Option Frontmatter := fun s =>
  if s = "layout: blog" then some [("layout", .str "blog")] else none

/-- Filesystem after a `_config.md` with `layout: blog` is created in
directory `a`. -/
def c7Fs2 : String → ConfigFile := fun p =>
  if p = "root/a" then .content "---\nlayout: blog\n---\n" else .absent

/-- State after resolving directory `a` at t=0 (stores the entry for `a`
and sets the global timestamp to 0). -/
def c7State1 : ConfigCacheState :=
  (resolveDirectoryConfig c7Env c7Fs1 c7Yaml 0 "root" "a" ⟨[], 0⟩).state

/-- State after additionally resolving directory `b` at t=4000 (stores the
entry for `b` and refreshes the global timestamp to 4000). -/
def c7State2 : ConfigCacheState :=
  (resolveDirectoryConfig c7Env c7Fs1 c7Yaml 4000 "root" "b" c7State1).state

/-- **C7 counterexample.** In development, the entry for `a` was computed
at t=0; at t=5000 it is 5000 ms old, which the claim says makes it
invalid (per-entry staleness). But the resolve of `b` at t=4000 refreshed
the single cache-wide timestamp, so at t=5000 the entry for `a` is still
served from the cache (`computed = false`) and the freshly created
`layout: blog` settings file for `a` is ignored — the resolver returns
the stale docs defaults even though parsing the file now yields blog. -/
theorem configCache_per_entry_ttl_cex :
    c7State1.cacheTimestamp = 0 ∧
    (resolveDirectoryConfig c7Env c7Fs2 c7Yaml 5000 "root" "a" c7State2).computed = false ∧
    (resolveDirectoryConfig c7Env c7Fs2 c7Yaml 5000 "root" "a" c7State2).config =
      DEFAULT_DOCS_CONFIG ∧
    (parseConfigFile c7Yaml (c7Fs2 "root/a")).layout = "blog" := by
  decide

/-- Closed instance of the amended C7 theorem: the hit characterization at
a concrete development-mode call on the empty cache. -/
theorem configCache_global_ttl_witness :
    (resolveDirectoryConfig c7Env c7Fs1 c7Yaml 0 "root" "a" ⟨[], 0⟩).computed = false ↔
      (∃ c, cfgLookup ([] : List (String × DirectoryConfig)) ("root" ++ ":" ++ normalizeDir "a") = some c ∧
        (c7Env.production = true ∨ 0 - 0 < CACHE_TTL)) :=
  (configCache_global_ttl c7Env c7Fs1 c7Yaml 0 "root" "a" ⟨[], 0⟩).1

theorem parseConfigFile_malformed (yamlParse : String → Option Frontmatter)
    (c : String)
    (hmal : extractFrontmatterBlock c = none ∨
      (∀ y, extractFrontmatterBlock c = some y → yamlParse y = none)) :
    parseConfigFile yamlParse (.content c) = DEFAULT_DOCS_CONFIG := by
  have hfm : extractConfigFrontmatter yamlParse c = [] := by
    unfold extractConfigFrontmatter
    cases hb : extractFrontmatterBlock c with
    | none => rfl
    | some y =>
      rcases hmal with hmal | hmal
      · rw [hmal] at hb
        exact Option.noConfusion hb
      · show (match yamlParse y with
            | some fm => fm
            | none => []) = []
        rw [hmal y hb]
  show buildConfig (extractConfigFrontmatter yamlParse c) = DEFAULT_DOCS_CONFIG
  rw [hfm]
  rfl

/-- **C8.** `resolveDirectoryConfig` is total by construction — every read
or parse failure is absorbed, never surfaced. When resolution actually
consults the filesystem (cache miss) and the per-directory settings file
is present but unreadable, or present but malformed (no frontmatter
block, or `yaml.parse` throws / returns null), the resolver returns the
built-in docs default settings. -/
theorem malformed_config_defaults (env : ConfigEnv) (fs : String → ConfigFile)
    (yamlParse : String → Option Frontmatter) (now : Nat)
    (contentDir dirPath : String) (s : ConfigCacheState)
    (hmiss : cfgLookup s.configCache (contentDir ++ ":" ++ normalizeDir dirPath) = none)
    (hfile : fs (joinPath contentDir (normalizeDir dirPath)) = ConfigFile.unreadable ∨
      (∃ c, fs (joinPath contentDir (normalizeDir dirPath)) = ConfigFile.content c ∧
        (extractFrontmatterBlock c = none ∨
          (∀ y, extractFrontmatterBlock c = some y → yamlParse y = none)))) :
    (resolveDirectoryConfig env fs yamlParse now contentDir dirPath s).config =
      DEFAULT_DOCS_CONFIG := by
  unfold resolveDirectoryConfig
  rw [hmiss]
  cases hv : isCacheValid env.production now s.cacheTimestamp
  all_goals
    rcases hfile with hf | ⟨c, hf, hmal⟩
    · rw [hf]
      rfl
    · rw [hf]
      show parseConfigFile yamlParse (ConfigFile.content c) = DEFAULT_DOCS_CONFIG
      exact parseConfigFile_malformed yamlParse c hmal

/-- Closed instance of the C8 theorem: an unreadable `_config.md` resolves
to the docs defaults. -/
theorem malformed_config_defaults_witness :
    (resolveDirectoryConfig ⟨true, "", "", ""⟩ (fun _ => ConfigFile.unreadable)
        (fun _ => none) 0 "root" "docs" ⟨[], 0⟩).config = DEFAULT_DOCS_CONFIG :=
  malformed_config_defaults ⟨true, "", "", ""⟩ (fun _ => ConfigFile.unreadable)
    (fun _ => none) 0 "root" "docs" ⟨[], 0⟩ rfl (Or.inl rfl)

/-! ## The image derivative cache (image processing pipeline) -/

/-- File bytes. -/
abbrev Buffer := List Nat

/-- `ImageOptions` (image pipeline lines 34–39). -/
structure ImageOptions where
  width : Option Int
  height : Option Int
  format : Option String
  quality : Option Int
deriving DecidableEq

def SUPPORTED_FORMATS : List String := ["webp", "avif", "jpeg", "jpg", "png"]

def MAX_WIDTH : Int := 3840

def MAX_HEIGHT : Int := 2160

def DEFAULT_QUALITY : Int := 80

/-- Value of a run of decimal digits. -/
def digitsVal (ds : List Char) : Nat :=
  ds.foldl (fun n c => n * 10 + (c.toNat - ('0').toNat)) 0

/-- JS `parseInt(s, 10)`: skip leading whitespace, take an optional sign
and the longest run of digits; `none` models `NaN` (no digits). -/
def parseIntJS (s : String) : Option Int :=
  let cs := s.data.dropWhile (fun c => c == ' ' || c == '\t' || c == '\n' || c == '\r')
  match cs with
  | '-' :: rest =>
    let ds := rest.takeWhile (fun c => c.isDigit)
    if ds.isEmpty then none else some (-(digitsVal ds : Int))
  | '+' :: rest =>
    let ds := rest.takeWhile (fun c => c.isDigit)
    if ds.isEmpty then none else some ((digitsVal ds : Int))
  | _ =>
    let ds := cs.takeWhile (fun c => c.isDigit)
    if ds.isEmpty then none else some ((digitsVal ds : Int))

/-- The image-relevant query parameters of a request; `none` = absent.
(Array-valued query parameters are not modelled.) -/
structure ImageQuery where
  w : Option String
  width : Option String
  h : Option String
  height : Option String
  f : Option String
  format : Option String
  q : Option String
  quality : Option String
deriving DecidableEq

/-- JS truthiness of a query parameter: absent and `""` are falsy. -/
def truthyStr : Option String → Option String
  | some s => if s = "" then none else some s
  | none => none

/-- `a || b` on query parameters (`query.w || query.width` etc.). -/
def qOr (a b : Option String) : Option String :=
  match truthyStr a with
  | some s => some s
  | none => truthyStr b

/-- A dimension accepted from a raw query value (lines 204–211): parsed
with `parseInt`, kept only when `0 < n ≤ maxVal`; `NaN` comparisons are
false, dropping the parameter. -/
def validDim (maxVal : Int) (v : Option String) : Option Int :=
  match v with
  | none => none
  | some s =>
    match parseIntJS s with
    | none => none
    | some n => if 0 < n ∧ n ≤ maxVal then some n else none

/-- The quality accepted from a raw query value (lines 221–224). -/
def validQuality (v : Option String) : Option Int :=
  match v with
  | none => none
  | some s =>
    match parseIntJS s with
    | none => none
    | some n => if 1 ≤ n ∧ n ≤ 100 then some n else none

/-- JS `String.prototype.toLowerCase` over the character sequence. -/
def strToLower (s : String) : String := ⟨s.data.map Char.toLower⟩

/-- The format accepted from a raw query value (lines 214–219). -/
def validFormat (v : Option String) : Option String :=
  match v with
  | none => none
  | some s =>
    if strToLower s ∈ SUPPORTED_FORMATS then some (strToLower s) else none

/-- `parseImageOptions` (image pipeline lines 193–227): `none` both for a
request with no processing parameters and for one where no valid
parameter remains (`Object.keys(options).length > 0` fails). -/
def parseImageOptions (query : ImageQuery) : Option ImageOptions :=
  if qOr query.w query.width = none ∧ qOr query.h query.height = none ∧
      qOr query.f query.format = none ∧ qOr query.q query.quality = none then none
  else if validDim MAX_WIDTH (qOr query.w query.width) = none ∧
      validDim MAX_HEIGHT (qOr query.h query.height) = none ∧
      validFormat (qOr query.f query.format) = none ∧
      validQuality (qOr query.q query.quality) = none then none
  else some ⟨validDim MAX_WIDTH (qOr query.w query.width),
    validDim MAX_HEIGHT (qOr query.h query.height),
    validFormat (qOr query.f query.format),
    validQuality (qOr query.q query.quality)⟩

theorem validDim_bounds (maxVal : Int) (v : Option String) (n : Int)
    (h : validDim maxVal v = some n) : 0 < n ∧ n ≤ maxVal := by
  unfold validDim at h
  split at h
  · exact Option.noConfusion h
  · split at h
    · exact Option.noConfusion h
    · split_ifs at h with hb
      cases h
      exact hb

theorem validQuality_bounds (v : Option String) (n : Int)
    (h : validQuality v = some n) : 1 ≤ n ∧ n ≤ 100 := by
  unfold validQuality at h
  split at h
  · exact Option.noConfusion h
  · split at h
    · exact Option.noConfusion h
    · split_ifs at h with hb
      cases h
      exact hb

theorem validFormat_supported (v : Option String) (fmt : String)
    (h : validFormat v = some fmt) : fmt ∈ SUPPORTED_FORMATS := by
  unfold validFormat at h
  split at h
  · exact Option.noConfusion h
  · split_ifs at h with hb
    cases h
    exact hb

/-- **C9.** Parsing image transform query parameters is total — modelled
as a total function, every input yields `some` options or the
serve-original `none`, never an error. Accepted widths and heights are
positive and bounded by the fixed maxima 3840 and 2160, accepted
qualities lie in 1..100, accepted formats are supported; an out-of-range
or non-numeric value leaves that parameter absent, and `none` is returned
exactly when no valid parameter remains. -/
theorem parseImageOptions_bounds (query : ImageQuery) :
    (∀ o, parseImageOptions query = some o →
      (∀ n, o.width = some n → 0 < n ∧ n ≤ 3840) ∧
      (∀ n, o.height = some n → 0 < n ∧ n ≤ 2160) ∧
      (∀ n, o.quality = some n → 1 ≤ n ∧ n ≤ 100) ∧
      (∀ fmt, o.format = some fmt → fmt ∈ SUPPORTED_FORMATS)) ∧
    (parseImageOptions query = none ↔
      (validDim MAX_WIDTH (qOr query.w query.width) = none ∧
        validDim MAX_HEIGHT (qOr query.h query.height) = none ∧
        validFormat (qOr query.f query.format) = none ∧
        validQuality (qOr query.q query.quality) = none)) := by
  unfold parseImageOptions
  by_cases hall : qOr query.w query.width = none ∧ qOr query.h query.height = none ∧
      qOr query.f query.format = none ∧ qOr query.q query.quality = none
  · rw [if_pos hall]
    obtain ⟨h1, h2, h3, h4⟩ := hall
    constructor
    · intro o ho
      exact Option.noConfusion ho
    · simp [h1, h2, h3, h4, validDim, validFormat, validQuality]
  · rw [if_neg hall]
    by_cases hvalid : validDim MAX_WIDTH (qOr query.w query.width) = none ∧
        validDim MAX_HEIGHT (qOr query.h query.height) = none ∧
        validFormat (qOr query.f query.format) = none ∧
        validQuality (qOr query.q query.quality) = none
    · rw [if_pos hvalid]
      exact ⟨fun o ho => Option.noConfusion ho, by simp [hvalid]⟩
    · rw [if_neg hvalid]
      constructor
      · intro o ho
        cases ho
        exact ⟨fun n hn => validDim_bounds _ _ n hn,
          fun n hn => validDim_bounds _ _ n hn,
          fun n hn => validQuality_bounds _ n hn,
          fun fmt hf => validFormat_supported _ fmt hf⟩
      · constructor
        · intro h
          exact Option.noConfusion h
        · intro h
          exact absurd h hvalid

/-- Output of one sharp invocation (`pipeline.toBuffer` with
`resolveWithObject`). -/
structure SharpInfo where
  data : Buffer
  format : String
  width : Int
  height : Int
deriving DecidableEq

/-- `ProcessedImage` (image pipeline lines 41–46). -/
structure ProcessedImage where
  buffer : Buffer
  mimeType : String
  width : Option Int
  height : Option Int
deriving DecidableEq

/-- The resize spec handed to `sharp().resize` (after `Math.min`
clamping, with `fit: inside` and `withoutEnlargement` implied). -/
structure ResizeSpec where
  width : Option Int
  height : Option Int
deriving DecidableEq

/-- One request to the sharp codec: source bytes, the optional clamped
resize, the format-conversion branch taken, and the quality. -/
structure CodecRequest where
  source : Buffer
  resize : Option ResizeSpec
  format : String
  quality : Int
deriving DecidableEq

/-- External environment of the image pipeline: whether `sharp` loads,
the codec itself (`none` models a throw during processing), and whether
the best-effort derivative disk write succeeds. -/
structure ImgEnv where
  sharpAvailable : Bool
  codec : CodecRequest → Option SharpInfo
  writeOk : Bool

/-- `getMimeType` (image pipeline lines 105–116). -/
def getMimeType (format : String) : String :=
  if format = "webp" then "image/webp"
  else if format = "avif" then "image/avif"
  else if format = "jpeg" then "image/jpeg"
  else if format = "jpg" then "image/jpeg"
  else if format = "png" then "image/png"
  else if format = "gif" then "image/gif"
  else if format = "svg" then "image/svg+xml"
  else "application/octet-stream"

/-- `processImageBuffer` (image pipeline lines 126–176): `none` models
both the unavailable codec (`getSharp` returned null) and a caught
processing error. Resize clamping (`Math.min` with the maxima) and the
falsy-value fallbacks `options.quality || DEFAULT_QUALITY`,
`options.format || 'original'` are applied before the codec call; the
per-format pipeline steps (`webp({quality})` etc.) are folded into the
`CodecRequest`. -/
def processImageBuffer (env : ImgEnv) (sourceBuffer : Buffer)
    (options : ImageOptions) : Option ProcessedImage :=
  if env.sharpAvailable = false then none
  else
    let resize : Option ResizeSpec :=
      if options.width ≠ none ∨ options.height ≠ none then
        some ⟨options.width.map (fun w => min w MAX_WIDTH),
          options.height.map (fun h => min h MAX_HEIGHT)⟩
      else none
    let quality : Int :=
      match options.quality with
      | some q => if q = 0 then DEFAULT_QUALITY else q
      | none => DEFAULT_QUALITY
    let format : String :=
      match options.format with
      | some f => if f = "" then "original" else f
      | none => "original"
    match env.codec ⟨sourceBuffer, resize, format, quality⟩ with
    | none => none
    | some info =>
      some ⟨info.data,
        getMimeType (if format = "original" then info.format else format),
        some info.width, some info.height⟩

/-- `path.basename`: the text after the last `/`. -/
def basename (p : String) : String :=
  ⟨(p.data.reverse.takeWhile (fun c => !(c == '/'))).reverse⟩

/-- `path.extname`: the last `.`-suffix of the name; empty when there is
no dot or only a leading dot. -/
def extname (name : String) : String :=
  let cs := name.data
  let extRev := cs.reverse.takeWhile (fun c => !(c == '.'))
  if extRev.length = cs.length then ""
  else if cs.length = extRev.length + 1 then ""
  else ⟨'.' :: extRev.reverse⟩

/-- `s.replace('.', '')` on an extension (removes the leading dot). -/
def stripDot (s : String) : String :=
  if strStarts s "." then ⟨s.data.drop 1⟩ else s

/-- `getCacheKey` (image pipeline lines 87–100): the derivative filename
from the source base name and the canonical transform encoding. The JS
truthiness tests (`if (options.width)` etc.) make a zero value encode as
absent. -/
def getCacheKey (originalName : String) (options : ImageOptions) : String :=
  let name : String :=
    ⟨originalName.data.take (originalName.data.length - (extname originalName).data.length)⟩
  let parts := [name]
    ++ (match options.width with
        | some w => if w ≠ 0 then ["w" ++ toString w] else []
        | none => [])
    ++ (match options.height with
        | some hgt => if hgt ≠ 0 then ["h" ++ toString hgt] else []
        | none => [])
    ++ (match options.quality with
        | some q => if q ≠ 0 ∧ q ≠ DEFAULT_QUALITY then ["q" ++ toString q] else []
        | none => [])
  let ext :=
    match options.format with
    | some f =>
      if f ≠ "" ∧ f ≠ "original" then (if f = "jpeg" then ".jpg" else "." ++ f)
      else extname originalName
    | none => extname originalName
  joinSep "-" parts ++ ext

/-- Filesystem of the image pipeline: path to `(mtimeMs, bytes)`. -/
structure ImgFs where
  files : String → Option (Nat × Buffer)

/-- The derivative disk-cache probe of `getProcessedImage` (lines
246–266): the derivative bytes when the cache file exists, both `stat`s
succeed, and the derivative is at least as new as the source; `none`
otherwise (including a `stat` failure, whose try/catch falls through to
processing). -/
def imageCacheHit (fs : ImgFs) (sourcePath cacheDir : String)
    (options : ImageOptions) : Option Buffer :=
  match fs.files (joinPath cacheDir (getCacheKey (basename sourcePath) options)),
      fs.files sourcePath with
  | some (cacheM, cacheBuf), some (sourceM, _) =>
    if sourceM ≤ cacheM then some cacheBuf else none
  | _, _ => none

/-- `getProcessedImage` (image pipeline lines 238–286). `Except.error ()`
models the rejected promise when `readFile(sourcePath)` fails (the only
uncaught path); `Except.ok none` is the use-original sentinel. The second
component records whether the processing path ran on the source bytes.
The derivative write (lines 274–283) sits in its own try/catch and the
returned value never depends on `env.writeOk`. -/
def getProcessedImage (env : ImgEnv) (fs : ImgFs) (sourcePath cacheDir : String)
    (options : ImageOptions) : Except Unit (Option ProcessedImage) × Bool :=
  match imageCacheHit fs sourcePath cacheDir options with
  | some buf =>
    (Except.ok (some ⟨buf,
      getMimeType (stripDot (strToLower (extname
        (joinPath cacheDir (getCacheKey (basename sourcePath) options))))),
      none, none⟩), false)
  | none =>
    match fs.files sourcePath with
    | none => (Except.error (), false)
    | some (_, sourceBuffer) =>
      (Except.ok (processImageBuffer env sourceBuffer options), true)

theorem processImageBuffer_fails (env : ImgEnv) (sourceBuffer : Buffer)
    (options : ImageOptions)
    (hfail : env.sharpAvailable = false ∨ ∀ req, env.codec req = none) :
    processImageBuffer env sourceBuffer options = none := by
  unfold processImageBuffer
  rcases hfail with hf | hf
  · rw [if_pos hf]
  · cases ha : env.sharpAvailable with
    | false => rw [if_pos rfl]
    | true =>
      rw [if_neg (by simp)]
      simp [hf]

/-- **C4.** On the processing path (source readable, no valid disk-cache
derivative), if the codec is unavailable (sharp failed to load) or raises
during processing, `getProcessedImage` returns the use-original sentinel
rather than propagating an error; and the returned value never depends on
whether the derivative disk write succeeds. -/
theorem codec_failure_returns_sentinel (env : ImgEnv) (fs : ImgFs)
    (sourcePath cacheDir : String) (options : ImageOptions)
    (hsrc : fs.files sourcePath ≠ none)
    (hmiss : imageCacheHit fs sourcePath cacheDir options = none)
    (hfail : env.sharpAvailable = false ∨ ∀ req, env.codec req = none) :
    (getProcessedImage env fs sourcePath cacheDir options).1 = Except.ok none ∧
    (∀ b, getProcessedImage ⟨env.sharpAvailable, env.codec, b⟩ fs sourcePath
      cacheDir options = getProcessedImage env fs sourcePath cacheDir options) := by
  constructor
  · unfold getProcessedImage
    rw [hmiss]
    cases hsf : fs.files sourcePath with
    | none => exact absurd hsf hsrc
    | some v =>
      obtain ⟨m, buf⟩ := v
      simp only []
      rw [processImageBuffer_fails env buf options hfail]
  · intro b
    rfl

/-- **C5.** For every source image and transform with the source file
present: if a file exists at the derived derivative path with mtime ≥ the
source mtime, `getProcessedImage` returns that derivative's bytes without
taking the processing path; if the derivative probe fails (absent or
older than the source), the processing path runs on the source bytes. -/
theorem derivative_cache_validity (env : ImgEnv) (fs : ImgFs)
    (sourcePath cacheDir : String) (options : ImageOptions)
    (sm : Nat) (sbuf : Buffer)
    (hsrc : fs.files sourcePath = some (sm, sbuf)) :
    (∀ cm cbuf,
      fs.files (joinPath cacheDir (getCacheKey (basename sourcePath) options)) =
        some (cm, cbuf) →
      sm ≤ cm →
      getProcessedImage env fs sourcePath cacheDir options =
        (Except.ok (some ⟨cbuf,
          getMimeType (stripDot (strToLower (extname
            (joinPath cacheDir (getCacheKey (basename sourcePath) options))))),
          none, none⟩), false)) ∧
    (imageCacheHit fs sourcePath cacheDir options = none →
      getProcessedImage env fs sourcePath cacheDir options =
        (Except.ok (processImageBuffer env sbuf options), true)) := by
  constructor
  · intro cm cbuf hc hle
    have hhit : imageCacheHit fs sourcePath cacheDir options = some cbuf := by
      unfold imageCacheHit
      rw [hc, hsrc]
      simp [hle]
    unfold getProcessedImage
    rw [hhit]
  · intro hmiss
    unfold getProcessedImage
    rw [hmiss, hsrc]

/-- Environment with a codec that always raises. -/
def c4Env : ImgEnv := ⟨true, fun _ => none, true⟩

/-- Filesystem with only the source image present. -/
def c4Fs : ImgFs := ⟨fun p => if p = "img/photo.png" then some (5, [1, 2, 3]) else none⟩

def c4Opts : ImageOptions := ⟨none, none, some "webp", none⟩

/-- Closed instance of the C4 fallback theorem: a raising codec yields the
use-original sentinel. -/
theorem codec_failure_returns_sentinel_witness :
    (getProcessedImage c4Env c4Fs "img/photo.png" "cache" c4Opts).1 =
      Except.ok none :=
  (codec_failure_returns_sentinel c4Env c4Fs "img/photo.png" "cache" c4Opts
    (by decide) (by decide) (Or.inr (fun _ => rfl))).1

def c5Env : ImgEnv := ⟨true, fun _ => none, true⟩

/-- Filesystem with the source image and a newer derivative at the
derived cache path `cache/photo.webp`. -/
def c5Fs : ImgFs := ⟨fun p =>
  if p = "img/photo.png" then some (5, [1, 2, 3])
  else if p = "cache/photo.webp" then some (7, [9, 9])
  else none⟩

def c5Opts : ImageOptions := ⟨none, none, some "webp", none⟩

/-- Closed instance of the C5 validity theorem: the fresh derivative's
bytes are served without processing. -/
theorem derivative_cache_validity_witness :
    getProcessedImage c5Env c5Fs "img/photo.png" "cache" c5Opts =
      (Except.ok (some ⟨[9, 9], getMimeType "webp", none, none⟩), false) :=
  (derivative_cache_validity c5Env c5Fs "img/photo.png" "cache" c5Opts 5 [1, 2, 3]
    (by decide)).1 7 [9, 9] (by decide) (by decide)

/-! ## The brand configuration cache (`brand.ts` lines 77–173) -/

/-- `BrandConfig` (brand.ts lines 36–55); footer links as label/url
pairs, string unions as strings. -/
structure BrandConfig where
  logo : String
  logoDark : String
  favicon : String
  accentColor : String
  headerStyle : String
  footerText : String
  footerLinks : List (String × String)
  customCss : String
  ogImage : String
deriving DecidableEq

def DEFAULT_BRAND : BrandConfig := ⟨"", "", "", "", "text_only", "", [], "", ""⟩

/-- Module-level brand cache state (brand.ts lines 77–78). -/
structure BrandState where
  brandCache : Option BrandConfig
  brandMtime : Nat
deriving DecidableEq

/-- Outcome of `existsSync`/`statSync`/`readFileSync` on the `_brand.md`
path: absent, present but failing to stat/read (the catch branch), or
present with an mtime and text. -/
inductive BrandFile where
  | absent
  | unreadable
  | content : Nat → String → BrandFile
deriving DecidableEq

/-- `getBrandConfig` (brand.ts lines 100–165) as a state transformer.
`parseBrand` models lines 118–151: the frontmatter regex, `yaml.parse`
and the field mapping (returning the defaults when the regex fails, which
the source also caches with the fresh mtime). The catch branch
(`unreadable`) caches the defaults WITHOUT updating `brandMtime`. -/
def getBrandConfig (parseBrand : String → BrandConfig) (file : BrandFile)
    (s : BrandState) : BrandConfig × BrandState :=
  match file with
  | .absent =>
    match s.brandCache with
    | some c => (c, s)
    | none => (DEFAULT_BRAND, ⟨some DEFAULT_BRAND, s.brandMtime⟩)
  | .unreadable => (DEFAULT_BRAND, ⟨some DEFAULT_BRAND, s.brandMtime⟩)
  | .content mtime text =>
    match s.brandCache with
    | some c =>
      if mtime = s.brandMtime then (c, s)
      else (parseBrand text, ⟨some (parseBrand text), mtime⟩)
    | none => (parseBrand text, ⟨some (parseBrand text), mtime⟩)

/-- `invalidateBrandCache` (brand.ts lines 170–173). -/
def invalidateBrandCache : BrandState := ⟨none, 0⟩

/-- **C10.** If `getBrandConfig` holds a cached configuration, a call
with the brand file deleted returns that cached configuration with the
state unchanged — so every subsequent call keeps returning it and file
deletion alone never invalidates the entry; after `invalidateBrandCache`,
a call with the file still absent caches and returns the defaults. -/
theorem brand_cache_survives_deletion (parseBrand : String → BrandConfig)
    (s : BrandState) (c : BrandConfig) (hc : s.brandCache = some c) :
    getBrandConfig parseBrand .absent s = (c, s) ∧
    getBrandConfig parseBrand .absent invalidateBrandCache =
      (DEFAULT_BRAND, ⟨some DEFAULT_BRAND, 0⟩) := by
  constructor
  · unfold getBrandConfig
    rw [hc]
  · rfl

/-- A non-default cached brand configuration. -/
def c10Brand : BrandConfig := { DEFAULT_BRAND with accentColor := "#123456" }

/-- Closed instance of the C10 theorem. -/
theorem brand_cache_survives_deletion_witness :
    getBrandConfig (fun _ => DEFAULT_BRAND) .absent ⟨some c10Brand, 42⟩ =
      (c10Brand, ⟨some c10Brand, 42⟩) :=
  (brand_cache_survives_deletion (fun _ => DEFAULT_BRAND) ⟨some c10Brand, 42⟩
    c10Brand rfl).1

end F0
